import Mathlib

/-!
Verification development for the maestro.go workflow orchestrator.

The definitions below are a shallow embedding of the Go sources:
  * `internal/domain/workflow.go` (data model),
  * `internal/workflow/parser.go` (parser validation and template resolver),
  * `internal/application/executor/{single,retry,condition,compensation}.go`
    and the executor part files (step execution, retry/backoff, guards,
    compensation),
  * the saga coordinator (`SagaCoordinator.Compensate`),
  * the engine driver (`Orchestrator.ExecuteWorkflow` in
    `internal/application/orchestrator.go`).

Go maps over `interface\x7b\x7d` values are modelled as association lists of
`Value`; Go errors are modelled by `GoError`; `int64` durations are modelled
as `Int` nanoseconds with explicit wrap-around at 2^64 where the source can
overflow.  Remote invocations are abstracted by an oracle function
`InvokeCall → Nat → Except GoError Value` (the `Nat` is the attempt number),
and context cancellation observed by the driver's between-step check is
abstracted by a predicate `Nat → Bool` on the step index.  Concurrency
(worker-pool admission and parallel groups) is outside this sequential model;
the theorems below are stated for workflows whose executed steps are leaves
or guarded leaves.
-/

namespace Maestro

/-- Model of a Go `interface\x7b\x7d` value as stored in the orchestrator's
maps: JSON-like data plus `null` for Go `nil`. -/
inductive Value where
  | null : Value
  | bool (b : Bool) : Value
  | str (s : String) : Value
  | int (n : Int) : Value
  | obj (fields : List (String × Value)) : Value

/-- Lookup in an association list modelling a Go `map[string]...`:
first binding wins. -/
def lookupKey (m : List (String × Value)) (k : String) : Option Value :=
  match m with
  | [] => none
  | (k', v) :: rest => if k' = k then some v else lookupKey rest k

/-- Key membership in an association list modelling a Go map. -/
def containsKey (m : List (String × Value)) (k : String) : Bool :=
  match m with
  | [] => false
  | (k', _) :: rest => if k' = k then true else containsKey rest k

/-- Go map assignment `m[k] = v`: replace the binding if present, otherwise
append it. -/
def insertKey (m : List (String × Value)) (k : String) (v : Value) :
    List (String × Value) :=
  match m with
  | [] => [(k, v)]
  | (k', v') :: rest =>
    if k' = k then (k, v) :: rest else (k', v') :: insertKey rest k v

/-- Embedding of `domain.IsTemplate` (workflow.go): a string value is a template iff it has
at least 4 bytes, begins with two opening braces and ends with two closing
braces.  Modelled on the character list of the string (the repository's
templates are ASCII, where Go's byte slicing and character indexing agree). -/
def IsTemplate (s : String) : Bool :=
  match s.data with
  | '\x7b' :: '\x7b' :: rest =>
    match rest.reverse with
    | '\x7d' :: '\x7d' :: _ => true
    | _ => false
  | _ => false

/-- Go `text/template` missing-key policy: `workflow.NewParser` installs
`Option missingkey=error`, while the executor's `resolveTemplate`
(`part_009`) builds its template with the default policy, under which a
missing final map key renders as the placeholder text. -/
inductive MissingKeyMode where
  | errorOnMissing : MissingKeyMode
  | defaultMissing : MissingKeyMode

/-- Split a character list on dots into path components. -/
def splitDots (cs : List Char) (cur : List Char) : List String :=
  match cs with
  | [] => [String.mk cur.reverse]
  | c :: rest =>
    if c = '.' then String.mk cur.reverse :: splitDots rest []
    else splitDots rest (c :: cur)

/-- Parse a template consisting of one field-chain action
(`\x7b\x7b .a.b \x7d\x7d`), the only template form appearing in this
repository's workflows, into its field path. -/
def parseAction (tmpl : String) : Option (List String) :=
  match tmpl.data with
  | '\x7b' :: '\x7b' :: ' ' :: rest =>
    match rest.reverse with
    | '\x7d' :: '\x7d' :: ' ' :: bodyRev =>
      match bodyRev.reverse with
      | '.' :: pathChars =>
        if pathChars.length = 0 then none
        else if pathChars.contains ' ' then none
        else some (splitDots pathChars [])
      | _ => none
    | _ => none
  | _ => none

/-- Whether a string contains a template action opener (two opening braces
in a row). -/
def hasAction (cs : List Char) : Bool :=
  match cs with
  | '\x7b' :: '\x7b' :: _ => true
  | _ :: rest => hasAction rest
  | [] => false

/-- How Go `text/template` prints a resolved value: strings verbatim,
booleans as `true` or `false`, integers in decimal, `nil` as the
`<no value>` placeholder. -/
def Value.render : Value → String
  | .null => "<no value>"
  | .bool b => if b then "true" else "false"
  | .str s => s
  | .int n => toString n
  | .obj _ => "map[]"

/-- Walk a field path through nested maps, following Go `text/template`
execution: a present binding continues the walk; a key missing from a map
is an execution error under `missingkey=error`, while under the default
policy a key missing at the last path component renders the placeholder
(modelled as `null`, printed `<no value>`) and a missing intermediate
component is an execution error in either mode.  Field access into a
non-map value is an execution error. -/
def walkFields (mode : MissingKeyMode) (v : Value) (path : List String) :
    Except String Value :=
  match path with
  | [] => .ok v
  | f :: rest =>
    match v with
    | .obj fields =>
      match lookupKey fields f with
      | some v' => walkFields mode v' rest
      | none =>
        match mode, rest with
        | .errorOnMissing, _ => .error ("map has no entry for key " ++ f)
        | .defaultMissing, [] => .ok .null
        | .defaultMissing, _ :: _ =>
          .error ("nil pointer evaluating field " ++ f)
    | _ => .error ("can not evaluate field " ++ f ++ " in non-map value")

/-- Model of Go `text/template` `Parse` + `Execute` restricted to the
fragment this repository uses: either plain text with no action (rendered
verbatim) or a single field-chain action. -/
def executeTemplate (mode : MissingKeyMode) (tmpl : String)
    (data : List (String × Value)) : Except String String :=
  if hasAction tmpl.data then
    match parseAction tmpl with
    | none => .error "unsupported template form in model"
    | some path => (walkFields mode (.obj data) path).map Value.render
  else
    .ok tmpl

/-- gRPC transport status codes relevant to the error classifier
(`google.golang.org/grpc/codes`). -/
inductive StatusCode where
  | Unavailable | DeadlineExceeded | ResourceExhausted
  | Canceled | Unknown | InvalidArgument | NotFound | Internal
deriving DecidableEq

/-- Model of the Go errors flowing through the executor:
  * `grpcStatus`: an error carrying a gRPC status (returned by the gRPC
    client call, possibly rewrapped),
  * `httpError`: the HTTP adapter's `fmt.Errorf` from `HTTP %d: %s` for a
    response with status ≥ 400 — a plain error whose message records the
    HTTP status; it carries no gRPC status,
  * `plain`: any other `fmt.Errorf` error (network failures, business
    `success=false` replies, resolution failures),
  * `wrap`: `fmt.Errorf` with `%w` wrapping an inner error. -/
inductive GoError where
  | grpcStatus (code : StatusCode) (msg : String) : GoError
  | httpError (status : Nat) (body : String) : GoError
  | plain (msg : String) : GoError
  | wrap (msg : String) (inner : GoError) : GoError
deriving DecidableEq

/-- Model of `status.FromError`: an error exposes a gRPC status iff it is a
status error or (via `errors.As` unwrapping) wraps one; plain and HTTP
adapter errors expose none. -/
def statusFromError : GoError → Option StatusCode
  | .grpcStatus c _ => some c
  | .wrap _ inner => statusFromError inner
  | .httpError _ _ => none
  | .plain _ => none

/-- Embedding of `isRetryableError` (`internal/application/executor/single.go`): retryable
iff `status.FromError` succeeds with code `Unavailable`, `DeadlineExceeded`
or `ResourceExhausted`; every other error is terminal. -/
def isRetryableError (err : GoError) : Bool :=
  match statusFromError err with
  | some .Unavailable => true
  | some .DeadlineExceeded => true
  | some .ResourceExhausted => true
  | _ => false

/-- Embedding of `domain.RetryConfig` (workflow.go): `Attempts` is a Go `int`,
`Backoff` the backoff strategy name. -/
structure RetryConfig where
  Attempts : Int
  Backoff : String

/-- Go `time.Duration` is an `int64` count of nanoseconds. -/
abbrev Duration := Int

/-- Embedding of `domain.Service` (workflow.go); the source field `Type` is a Lean
keyword, hence `Type'`. -/
structure Service where
  Type' : String
  Endpoint : String
  Timeout : Duration
  Retry : Option RetryConfig
  Metadata : List (String × String)

/-- Embedding of `domain.CompensateConfig` (workflow.go). -/
structure CompensateConfig where
  Method : String
  Input : List (String × Value)

/-- Embedding of `domain.Step` (workflow.go).  `Parallel` makes the type nested-recursive,
so it is an inductive with one constructor and projection functions. -/
inductive Step where
  | mk (ID Service Method : String) (Input : List (String × Value))
       (Output When : String) (Compensate : Option CompensateConfig)
       (Parallel : List Step) : Step

def Step.ID : Step → String
  | .mk i _ _ _ _ _ _ _ => i

def Step.Service : Step → String
  | .mk _ s _ _ _ _ _ _ => s

def Step.Method : Step → String
  | .mk _ _ m _ _ _ _ _ => m

def Step.Input : Step → List (String × Value)
  | .mk _ _ _ inp _ _ _ _ => inp

def Step.Output : Step → String
  | .mk _ _ _ _ o _ _ _ => o

def Step.When : Step → String
  | .mk _ _ _ _ _ w _ _ => w

def Step.Compensate : Step → Option CompensateConfig
  | .mk _ _ _ _ _ _ c _ => c

def Step.Parallel : Step → List Step
  | .mk _ _ _ _ _ _ _ p => p

/-- Embedding of `domain.Workflow` (workflow.go); the `Services` and `Output` Go maps are
association lists. -/
structure Workflow where
  Name : String
  Version : String
  Timeout : Duration
  Services : List (String × Service)
  Steps : List Step
  Output : List (String × String)

/-- Embedding of `domain.ExecutedStep` (workflow.go): one entry of the saga log. -/
structure ExecutedStep where
  StepID : String
  Output : Value
  Compensation : Option CompensateConfig
  Compensated : Bool

/-- Embedding of `domain.ExecutionContext` (workflow.go). -/
structure ExecutionContext where
  WorkflowID : String
  Input : List (String × Value)
  Variables : List (String × Value)
  StepOutputs : List (String × Value)
  ExecutedSteps : List ExecutedStep

/-- Embedding of `domain.StepResult` (workflow.go), without its unused `Error` field. -/
structure StepResult where
  StepID : String
  Output : Value

/-- Embedding of `domain.WorkflowStatus` (workflow.go). -/
inductive WorkflowStatus where
  | Pending | Running | Success | Failed | Cancelled | Compensating | Compensated
deriving DecidableEq

/-- Embedding of `domain.WorkflowResult` (workflow.go), without the timestamps. -/
structure WorkflowResult where
  WorkflowID : String
  Status : WorkflowStatus
  Output : List (String × Value)
  Error : Option GoError

/-- Wrap an integer into the signed 64-bit range, as Go `int64` arithmetic
does on overflow. -/
def wrap64 (n : Int) : Int :=
  (n + 2 ^ 63) % 2 ^ 64 - 2 ^ 63

/-- Nanoseconds in Go `time.Second`. -/
def nsPerSecond : Int := 1000000000

/-- Go `1 << uint(attempt)` at type `int64`: a plain power of two up to
shift 62, wrapping at 63 and zero from shift 64 on. -/
def shiftOne64 (attempt : Nat) : Int :=
  if attempt ≥ 64 then 0 else wrap64 (2 ^ attempt)

/-- Embedding of `Executor.calculateBackoff` (`internal/application/executor/retry.go`):
one second unless the policy's backoff is `exponential`, in which case
`min(1s << attempt, 30s)` computed in `int64` arithmetic (the caller passes
`attempt-1` for upcoming attempt number `attempt`). -/
def calculateBackoff (attempt : Nat) (retry : Option RetryConfig) : Duration :=
  match retry with
  | none => nsPerSecond
  | some r =>
    if r.Backoff ≠ "exponential" then nsPerSecond
    else
      let baseDelay := nsPerSecond
      let maxDelay := 30 * nsPerSecond
      let delay := wrap64 (baseDelay * shiftOne64 attempt)
      min delay maxDelay

/-- One invocation recorded by the retry loop: the duration passed to
`time.Sleep` before the attempt (`none` for the first attempt, which is not
preceded by a sleep) and the attempt's outcome. -/
structure AttemptTrace where
  sleepBefore : Option Duration
  outcome : Except GoError Value

/-- The retry loop of `executeSingleStep`
(`internal/application/executor/single.go`, lines 51-92), parameterised by
the per-attempt invocation outcome: starting at attempt number `attempt`,
sleep `calculateBackoff (attempt-1)` when `attempt > 1`, invoke, stop on
success, and continue to the next attempt only while the attempt number is
below the cap and the error is classified retryable.  The `fuel` argument
is `retryAttempts - attempt + 1` at every call, so the zero-fuel branch is
unreachable from `retryLoop`. -/
def retryLoopAux (invoke : Nat → Except GoError Value)
    (retry : Option RetryConfig) (retryAttempts : Nat) :
    Nat → Nat → List AttemptTrace × Except GoError Value
  | 0, _ => ([], .error (.plain "retry fuel exhausted in model"))
  | fuel + 1, attempt =>
    let sleep : Option Duration :=
      if attempt > 1 then some (calculateBackoff (attempt - 1) retry) else none
    match invoke attempt with
    | .ok v => ([⟨sleep, .ok v⟩], .ok v)
    | .error e =>
      if attempt < retryAttempts ∧ isRetryableError e then
        let next := retryLoopAux invoke retry retryAttempts fuel (attempt + 1)
        (⟨sleep, .error e⟩ :: next.1, next.2)
      else
        ([⟨sleep, .error e⟩], .error e)

/-- Entry point of the retry loop: attempts are numbered from 1 up to the
cap `retryAttempts`. -/
def retryLoop (invoke : Nat → Except GoError Value)
    (retry : Option RetryConfig) (retryAttempts : Nat) :
    List AttemptTrace × Except GoError Value :=
  retryLoopAux invoke retry retryAttempts retryAttempts 1

/-- The scope against which step inputs and compensation inputs are
rendered (`resolveStepInput` and `CompensateStep`): the caller input under
the key `input`, then every recorded step output copied in at top level
(`maps.Copy` lets a step output override the `input` binding, which the
first-match association-list order reproduces). -/
def templateScope (ctx : ExecutionContext) : List (String × Value) :=
  ctx.StepOutputs ++ [("input", Value.obj ctx.Input)]

/-- The shared per-key resolution of a Go input map (`resolveStepInput` and
`CompensateStep` both use it): string values that `IsTemplate` recognises
are rendered with the executor's resolver, every other value passes through
verbatim; the first resolution failure aborts. -/
def resolveValueMap (mode : MissingKeyMode) (data : List (String × Value)) :
    List (String × Value) → Except String (List (String × Value))
  | [] => .ok []
  | (k, v) :: rest =>
    match v with
    | .str s =>
      if IsTemplate s then
        match executeTemplate mode s data with
        | .error e => .error e
        | .ok r =>
          match resolveValueMap mode data rest with
          | .error e => .error e
          | .ok m => .ok ((k, Value.str r) :: m)
      else
        match resolveValueMap mode data rest with
        | .error e => .error e
        | .ok m => .ok ((k, Value.str s) :: m)
    | _ =>
      match resolveValueMap mode data rest with
      | .error e => .error e
      | .ok m => .ok ((k, v) :: m)

/-- Embedding of `Executor.resolveStepInput` (`part_009`): render the step's input against
`templateScope`; the executor's resolver uses the default missing-key
policy (no `missingkey=error` option is installed). -/
def resolveStepInput (step : Step) (ctx : ExecutionContext) :
    Except String (List (String × Value)) :=
  resolveValueMap .defaultMissing (templateScope ctx) step.Input

/-- Scan `StepOutputs` for a boolean output recorded under the given name,
as `evaluateCondition`'s range loop does (non-boolean values under the name
are passed over). -/
def findBoolOutput (outputs : List (String × Value)) (name : String) :
    Option Bool :=
  match outputs with
  | [] => none
  | (k, v) :: rest =>
    match v with
    | .bool b => if k = name then some b else findBoolOutput rest name
    | _ => findBoolOutput rest name

/-- Embedding of `Executor.evaluateCondition`
(`internal/application/executor/condition.go`): render the guard against a
scope holding only `input`, then return a boolean step output recorded
under the rendered name if one exists, else compare the rendered text with
the literal `true`. -/
def evaluateCondition (condition : String) (ctx : ExecutionContext) :
    Except String Bool :=
  match executeTemplate .defaultMissing condition [("input", .obj ctx.Input)] with
  | .error e => .error e
  | .ok resolved =>
    match findBoolOutput ctx.StepOutputs resolved with
    | some b => .ok b
    | none => .ok (resolved = "true")

/-- One remote invocation as handed to `DynamicClient.InvokeMethod`:
service name, method, resolved input, workflow id and step id. -/
structure InvokeCall where
  service : String
  method : String
  input : List (String × Value)
  workflowID : String
  stepID : String

/-- Service lookup `wf.Services[step.Service]`. -/
def lookupService (services : List (String × Service)) (name : String) :
    Option Service :=
  match services with
  | [] => none
  | (k, s) :: rest => if k = name then some s else lookupService rest name

/-- Embedding of `Executor.executeSingleStep`
(`internal/application/executor/single.go`): look the service up, resolve
the step input once, compute the attempts cap (`Retry.Attempts` when above
one, else one) and run the retry loop; the per-attempt service-timeout
scope and the worker-pool slot are outside this sequential model.  Returns
the attempt trace together with the step result. -/
def executeSingleStep (invoke : InvokeCall → Nat → Except GoError Value)
    (step : Step) (execCtx : ExecutionContext) (wf : Workflow) :
    List AttemptTrace × Except GoError StepResult :=
  match lookupService wf.Services step.Service with
  | none => ([], .error (.plain ("service " ++ step.Service ++ " not found")))
  | some service =>
    match resolveStepInput step execCtx with
    | .error e => ([], .error (.plain ("failed to resolve input: " ++ e)))
    | .ok resolvedInput =>
      let retryAttempts : Nat :=
        match service.Retry with
        | some r => if r.Attempts > 1 then r.Attempts.toNat else 1
        | none => 1
      let call : InvokeCall :=
        ⟨step.Service, step.Method, resolvedInput, execCtx.WorkflowID, step.ID⟩
      let run := retryLoop (fun n => invoke call n) service.Retry retryAttempts
      match run.2 with
      | .error e => (run.1, .error e)
      | .ok v => (run.1, .ok ⟨step.ID, v⟩)

/-- Embedding of `Executor.ExecuteStep` (`part_009`): dispatch on shape.  Parallel groups
run children concurrently and are outside this sequential model (no claim
below concerns a parallel group); a non-empty `When` guard is evaluated
first, and a false guard short-circuits to a non-nil result carrying a nil
output without invoking anything; otherwise the leaf is executed.  The
`Option StepResult` mirrors the Go `*StepResult` (`some` = non-nil). -/
def ExecuteStep (invoke : InvokeCall → Nat → Except GoError Value)
    (step : Step) (execCtx : ExecutionContext) (wf : Workflow) :
    List AttemptTrace × Except GoError (Option StepResult) :=
  if step.Parallel.length > 0 then
    ([], .error (.plain "parallel groups are outside this sequential model"))
  else if step.When ≠ "" then
    match evaluateCondition step.When execCtx with
    | .error e => ([], .error (.plain e))
    | .ok false => ([], .ok (some ⟨step.ID, .null⟩))
    | .ok true =>
      let run := executeSingleStep invoke step execCtx wf
      (run.1, run.2.map some)
  else
    let run := executeSingleStep invoke step execCtx wf
    (run.1, run.2.map some)

/-- Embedding of `Executor.CompensateStep`
(`internal/application/executor/compensation.go`): nothing happens for an
entry without a compensation or already compensated; otherwise the
compensation input is re-rendered against the current `templateScope` (a
resolution failure aborts before any call), and the Invoker is called with
the entry's `StepID` as the service-name argument, the compensation's
method, and step id `StepID_compensate`; on success the entry is marked
compensated.  Returns the updated entry, the calls issued, and the error
if any. -/
def CompensateStep (invoke : InvokeCall → Except GoError Value)
    (step : ExecutedStep) (execCtx : ExecutionContext) :
    ExecutedStep × List InvokeCall × Option GoError :=
  match step.Compensation with
  | none => (step, [], none)
  | some comp =>
    if step.Compensated then (step, [], none)
    else
      match resolveValueMap .defaultMissing (templateScope execCtx) comp.Input with
      | .error e =>
        (step, [], some (.plain ("failed to resolve compensation input: " ++ e)))
      | .ok resolvedInput =>
        let call : InvokeCall :=
          ⟨step.StepID, comp.Method, resolvedInput, execCtx.WorkflowID,
            step.StepID ++ "_compensate"⟩
        match invoke call with
        | .error e => (step, [call], some e)
        | .ok _ => ({ step with Compensated := true }, [call], none)

/-- The saga loop of `SagaCoordinator.Compensate` (`part_008`), written over
the reversed `executed_steps` so the head is the entry the Go loop visits
first (index `len-1`): entries without a compensation or already
compensated are skipped; for the rest `CompensateStep` runs, and a failure
is recorded (tagged with the entry's step id, as the aggregate's
`failed to compensate step %s` message does) without stopping the walk.
Returns the updated entries (still in reversed order), the recorded errors
and the calls issued, both in visit order. -/
def compensateRev (invoke : InvokeCall → Except GoError Value)
    (execCtx : ExecutionContext) :
    List ExecutedStep →
    List ExecutedStep × List (String × GoError) × List InvokeCall
  | [] => ([], [], [])
  | step :: rest =>
    if step.Compensation.isNone then
      let next := compensateRev invoke execCtx rest
      (step :: next.1, next.2.1, next.2.2)
    else if step.Compensated then
      let next := compensateRev invoke execCtx rest
      (step :: next.1, next.2.1, next.2.2)
    else
      let this := CompensateStep invoke step execCtx
      let next := compensateRev invoke execCtx rest
      match this.2.2 with
      | some e =>
        (this.1 :: next.1, (step.StepID, e) :: next.2.1, this.2.1 ++ next.2.2)
      | none => (this.1 :: next.1, next.2.1, this.2.1 ++ next.2.2)

/-- Outcome of one `SagaCoordinator.Compensate` run: the execution context
with its updated saga log, the recorded compensation errors and the calls
issued in visit order, and the aggregate error returned to the driver. -/
structure SagaOutcome where
  execCtx : ExecutionContext
  errors : List (String × GoError)
  calls : List InvokeCall
  result : Option GoError

/-- Embedding of `SagaCoordinator.Compensate` (`part_008`): return immediately when the
saga log is empty; otherwise walk `executed_steps` from last to first via
`compensateRev`, and return an aggregate error exactly when at least one
compensation failed. -/
def Compensate (invoke : InvokeCall → Except GoError Value)
    (execCtx : ExecutionContext) : SagaOutcome :=
  if execCtx.ExecutedSteps.length = 0 then ⟨execCtx, [], [], none⟩
  else
    let walk := compensateRev invoke execCtx execCtx.ExecutedSteps.reverse
    let ctx' := { execCtx with ExecutedSteps := walk.1.reverse }
    ⟨ctx', walk.2.1, walk.2.2,
      if walk.2.1.length = 0 then none
      else some (.plain "compensation completed with errors")⟩

/-- The per-step commit in `Orchestrator.ExecuteWorkflow`
(`internal/application/orchestrator.go`, lines 148-160): when the scheduler
returned a non-nil result, record its output under the step's output name
(when set) and append a saga-log entry (when the step declares a
compensation); a nil result commits nothing. -/
def commitStep (execCtx : ExecutionContext) (step : Step)
    (stepResult : Option StepResult) : ExecutionContext :=
  match stepResult with
  | none => execCtx
  | some r =>
    let ctx₁ :=
      if step.Output ≠ "" then
        { execCtx with StepOutputs := insertKey execCtx.StepOutputs step.Output r.Output }
      else execCtx
    match step.Compensate with
    | some comp =>
      { ctx₁ with ExecutedSteps :=
          ctx₁.ExecutedSteps ++ [⟨step.ID, r.Output, some comp, false⟩] }
    | none => ctx₁

/-- Modelled from the spec: the application package's `NewParser` — the
file defining the `application.Parser` the driver renders its output
templates with is not under `src/`.  Spec §4.2 states a missing key is an
error, matching the sibling `workflow.NewParser` in
`internal/workflow/parser.go`, which installs `missingkey=error`; the
driver's output resolver therefore runs in error mode. -/
def applicationParserMode : MissingKeyMode := .errorOnMissing

/-- The success-path output rendering of `Orchestrator.ExecuteWorkflow`
(lines 163-176): each workflow-level output template is rendered against a
scope holding only `input` (not variables or step outputs); a template that
fails to resolve is skipped with a warning and its key dropped. -/
def renderOutputs (wfOutput : List (String × String))
    (input : List (String × Value)) : List (String × Value) :=
  match wfOutput with
  | [] => []
  | (key, tmpl) :: rest =>
    match executeTemplate applicationParserMode tmpl [("input", .obj input)] with
    | .error _ => renderOutputs rest input
    | .ok v => (key, Value.str v) :: renderOutputs rest input

/-- The final merge of `Orchestrator.ExecuteWorkflow` (lines 178-184): every
recorded step output whose name is not already a key of the rendered output
is added to it. -/
def mergeStepOutputs (resultOutput : List (String × Value))
    (stepOutputs : List (String × Value)) : List (String × Value) :=
  match stepOutputs with
  | [] => resultOutput
  | (k, v) :: rest =>
    if containsKey resultOutput k then mergeStepOutputs resultOutput rest
    else mergeStepOutputs (resultOutput ++ [(k, v)]) rest

/-- The error `ctx.Err()` reports when the driver's between-step check
observes cancellation. -/
def contextErr : GoError := .plain "context canceled or deadline exceeded"

/-- Outcome of a driver run: the result bundle, the final execution context,
whether the saga coordinator was invoked and what it did, and how many
steps the scheduler was entered on. -/
structure RunOutcome where
  result : WorkflowResult
  execCtx : ExecutionContext
  sagaInvoked : Bool
  sagaErrors : List (String × GoError)
  sagaCalls : List InvokeCall
  stepsStarted : Nat

/-- The step loop of `Orchestrator.ExecuteWorkflow` (lines 116-196) over the
remaining steps, with `i` the index of the next step.  `ctxDone i` models
whether the workflow context's `Done` channel is already closed at the
select preceding step `i` (workflow-timeout expiry or caller cancellation):
if so the run stops with status `cancelled` and no compensation.  A step
error sends the driver to the saga coordinator and ends the run with
status `compensated`, or `failed` when the aggregate compensation error is
non-nil, returning the originating step error either way.  When the steps
are exhausted the output bundle is rendered and merged and the run ends
with status `success`. -/
def runSteps (invoke : InvokeCall → Nat → Except GoError Value)
    (ctxDone : Nat → Bool) (wf : Workflow) (execCtx : ExecutionContext)
    (i : Nat) : List Step → RunOutcome
  | [] =>
    let rendered := renderOutputs wf.Output execCtx.Input
    let output := mergeStepOutputs rendered execCtx.StepOutputs
    ⟨⟨execCtx.WorkflowID, .Success, output, none⟩, execCtx, false, [], [], 0⟩
  | step :: rest =>
    if ctxDone i then
      ⟨⟨execCtx.WorkflowID, .Cancelled, [], some contextErr⟩, execCtx,
        false, [], [], 0⟩
    else
      match (ExecuteStep invoke step execCtx wf).2 with
      | .error e =>
        let saga := Compensate (fun c => invoke c 1) execCtx
        let status : WorkflowStatus :=
          match saga.result with
          | some _ => .Failed
          | none => .Compensated
        ⟨⟨execCtx.WorkflowID, status, [], some e⟩, saga.execCtx,
          true, saga.errors, saga.calls, 1⟩
      | .ok stepResult =>
        let ctx' := commitStep execCtx step stepResult
        let next := runSteps invoke ctxDone wf ctx' (i + 1) rest
        { next with stepsStarted := next.stepsStarted + 1 }

/-- Embedding of `Orchestrator.ExecuteWorkflow` (`internal/application/orchestrator.go`):
build a fresh execution context for the workflow id and caller input and
walk the step list.  The saga coordinator shares the driver's invoker; the
attempt index passed to the oracle for a compensation call is 1 (the
coordinator never retries internally). -/
def ExecuteWorkflow (invoke : InvokeCall → Nat → Except GoError Value)
    (ctxDone : Nat → Bool) (workflowID : String) (wf : Workflow)
    (input : List (String × Value)) : RunOutcome :=
  runSteps invoke ctxDone wf ⟨workflowID, input, [], [], []⟩ 0 wf.Steps

/-- Embedding of `Parser.validateService` (`internal/workflow/parser.go`): type required,
endpoint required, type must be `grpc` or `http`. -/
def validateService (name : String) (s : Service) : Except String Unit :=
  if s.Type' = "" then .error ("service " ++ name ++ ": type is required")
  else if s.Endpoint = "" then
    .error ("service " ++ name ++ ": endpoint is required")
  else if s.Type' ≠ "grpc" ∧ s.Type' ≠ "http" then
    .error ("service " ++ name ++ ": invalid type")
  else .ok ()

/-- The services loop of `Parser.validateWorkflow`; the Go map's iteration
order is arbitrary, which only permutes the error reported, not
acceptance. -/
def validateServices : List (String × Service) → Except String Unit
  | [] => .ok ()
  | (name, s) :: rest =>
    match validateService name s with
    | .error e => .error e
    | .ok _ => validateServices rest

mutual

/-- Embedding of `Parser.validateStep` (`internal/workflow/parser.go`): a step with a
non-empty `Parallel` list validates its children (each against its own
position index) and nothing else; a leaf gets `step_i` auto-filled for an
empty ID (on a local copy, which cannot fail), then requires a non-empty
service name that exists in the services map, a non-empty method, and a
non-empty compensation method when a compensation is declared.  No check
involves ID uniqueness or template references. -/
def validateStep (services : List (String × Service)) :
    Step → Nat → Except String Unit
  | .mk id svc mth _ _ _ comp par, index =>
    if par.length > 0 then validateSteps services par 0
    else
      let stepID := if id = "" then "step_" ++ toString index else id
      if svc = "" then .error ("step " ++ stepID ++ ": service is required")
      else
        match lookupService services svc with
        | none => .error ("step " ++ stepID ++ ": unknown service " ++ svc)
        | some _ =>
          if mth = "" then .error ("step " ++ stepID ++ ": method is required")
          else
            match comp with
            | some c =>
              if c.Method = "" then
                .error ("step " ++ stepID ++ ": compensation method is required")
              else .ok ()
            | none => .ok ()

/-- The indexed loop over a step list used both for `w.Steps` and for the
children of a parallel group. -/
def validateSteps (services : List (String × Service)) :
    List Step → Nat → Except String Unit
  | [], _ => .ok ()
  | s :: rest, index =>
    match validateStep services s index with
    | .error e => .error e
    | .ok _ => validateSteps services rest (index + 1)

end

/-- Embedding of `Parser.validateWorkflow` (`internal/workflow/parser.go`, lines 44-70):
name, version, at least one step, then all services and all steps. -/
def validateWorkflow (w : Workflow) : Except String Unit :=
  if w.Name = "" then .error "workflow name is required"
  else if w.Version = "" then .error "workflow version is required"
  else if w.Steps.length = 0 then .error "workflow must have at least one step"
  else
    match validateServices w.Services with
    | .error e => .error e
    | .ok _ => validateSteps w.Services w.Steps 0

/-- Stated from the spec, for comparison in claim C6: the checks
`validateWorkflow` actually performs on a service, as a predicate. -/
def ServiceBasicOK (s : Service) : Bool :=
  s.Type' != "" && s.Endpoint != "" && (s.Type' == "grpc" || s.Type' == "http")

mutual

/-- Stated from the spec, for comparison in claim C6: the checks
`validateStep` actually performs on a step, as a predicate — service
present and known, method present, compensation method present when
declared, children recursively for parallel groups; nothing about ID
uniqueness or cyclic references. -/
def StepBasicOK (services : List (String × Service)) : Step → Bool
  | .mk _ svc mth _ _ _ comp par =>
    if par.length > 0 then StepsBasicOK services par
    else
      svc != "" && (lookupService services svc).isSome && mth != "" &&
        (match comp with
         | some c => c.Method != ""
         | none => true)

/-- Conjunction of `StepBasicOK` over a step list. -/
def StepsBasicOK (services : List (String × Service)) : List Step → Bool
  | [] => true
  | s :: rest => StepBasicOK services s && StepsBasicOK services rest

end

/-- Stated from the spec, for comparison in claim C6: everything
`validateWorkflow` checks, as one predicate. -/
def validateWorkflowOK (w : Workflow) : Bool :=
  w.Name != "" && w.Version != "" && decide (0 < w.Steps.length) &&
    (w.Services.all fun p => ServiceBasicOK p.2) &&
    StepsBasicOK w.Services w.Steps

/-- Stated from the spec, for comparison in claim C4: the retryable class
the claim describes — transport codes unavailable, deadline exceeded,
resource exhausted, and HTTP 5xx, 408 or 429 (network connect/timeout
failures have no separate representation here; like every non-status error
they reach the classifier as plain errors). -/
def claimRetryable : GoError → Bool
  | .grpcStatus .Unavailable _ => true
  | .grpcStatus .DeadlineExceeded _ => true
  | .grpcStatus .ResourceExhausted _ => true
  | .grpcStatus _ _ => false
  | .httpError status _ =>
    (500 ≤ status && status < 600) || status == 408 || status == 429
  | .plain _ => false
  | .wrap _ inner => claimRetryable inner

/-- Stated from the spec, for comparison in claim C9: the backoff the spec
prescribes before the given attempt number — one second for constant or
unspecified backoff, `min(1s * 2^(attempt-1), 30s)` for exponential. -/
def specBackoff (attempt : Nat) (backoff : String) : Int :=
  if backoff = "exponential" then
    min (nsPerSecond * 2 ^ (attempt - 1)) (30 * nsPerSecond)
  else nsPerSecond

/-- The compensation call `CompensateStep` issues for a saga-log entry, or
`none` when the entry is skipped (no compensation, already compensated) or
its input fails to resolve; used to state the visit order of the saga
walk. -/
def sagaCallOf (execCtx : ExecutionContext) (s : ExecutedStep) :
    Option InvokeCall :=
  match s.Compensation with
  | none => none
  | some comp =>
    if s.Compensated then none
    else
      match resolveValueMap .defaultMissing (templateScope execCtx) comp.Input with
      | .error _ => none
      | .ok inp =>
        some ⟨s.StepID, comp.Method, inp, execCtx.WorkflowID,
          s.StepID ++ "_compensate"⟩

/-- The calls issued by the saga walk are exactly the `sagaCallOf` images of
the visited list, in visit order. -/
theorem compensateRev_calls (invoke : InvokeCall → Except GoError Value)
    (execCtx : ExecutionContext) :
    ∀ l : List ExecutedStep,
      (compensateRev invoke execCtx l).2.2 = l.filterMap (sagaCallOf execCtx)
  | [] => by simp [compensateRev]
  | step :: rest => by
    have ih := compensateRev_calls invoke execCtx rest
    cases hc : step.Compensation with
    | none =>
      simp [compensateRev, hc, sagaCallOf, ih]
    | some comp =>
      by_cases hdone : step.Compensated
      · simp [compensateRev, hc, hdone, sagaCallOf, ih]
      · cases hres : resolveValueMap .defaultMissing (templateScope execCtx) comp.Input with
        | error e =>
          simp [compensateRev, CompensateStep, hc, hdone, hres, sagaCallOf, ih]
        | ok inp =>
          cases hinv : invoke ⟨step.StepID, comp.Method, inp, execCtx.WorkflowID,
              step.StepID ++ "_compensate"⟩ with
          | error e =>
            simp [compensateRev, CompensateStep, hc, hdone, hres, hinv, sagaCallOf, ih]
          | ok v =>
            simp [compensateRev, CompensateStep, hc, hdone, hres, hinv, sagaCallOf, ih]

/-- Pointwise account of the saga walk: every visited entry keeps its step
id, and every eligible entry (compensation present, not yet compensated)
either ends marked compensated or has an error recorded under its step
id. -/
theorem compensateRev_coverage (invoke : InvokeCall → Except GoError Value)
    (execCtx : ExecutionContext) :
    ∀ l : List ExecutedStep,
      List.Forall₂ (fun s s' =>
          s.StepID = s'.StepID ∧
            (s.Compensation.isSome = true → s.Compensated = false →
              (s'.Compensated = true ∨
                ∃ e, (s.StepID, e) ∈ (compensateRev invoke execCtx l).2.1)))
        l (compensateRev invoke execCtx l).1
  | [] => by simp [compensateRev]
  | step :: rest => by
    have ih := compensateRev_coverage invoke execCtx rest
    cases hc : step.Compensation with
    | none =>
      have hunfold : compensateRev invoke execCtx (step :: rest) =
          (step :: (compensateRev invoke execCtx rest).1,
           (compensateRev invoke execCtx rest).2.1,
           (compensateRev invoke execCtx rest).2.2) := by
        simp [compensateRev, hc]
      rw [hunfold]
      refine List.Forall₂.cons ⟨rfl, by simp [hc]⟩ (ih.imp ?_)
      intro s s' h
      exact ⟨h.1, fun h1 h2 => h.2 h1 h2⟩
    | some comp =>
      by_cases hdone : step.Compensated
      · have hunfold : compensateRev invoke execCtx (step :: rest) =
            (step :: (compensateRev invoke execCtx rest).1,
             (compensateRev invoke execCtx rest).2.1,
             (compensateRev invoke execCtx rest).2.2) := by
          simp [compensateRev, hc, hdone]
        rw [hunfold]
        refine List.Forall₂.cons ⟨rfl, fun _ h2 => absurd hdone (by simp [h2])⟩
          (ih.imp ?_)
        intro s s' h
        exact ⟨h.1, fun h1 h2 => h.2 h1 h2⟩
      · cases hres : resolveValueMap .defaultMissing (templateScope execCtx) comp.Input with
        | error e =>
          have hunfold : compensateRev invoke execCtx (step :: rest) =
              (step :: (compensateRev invoke execCtx rest).1,
               (step.StepID,
                 GoError.plain ("failed to resolve compensation input: " ++ e)) ::
                   (compensateRev invoke execCtx rest).2.1,
               (compensateRev invoke execCtx rest).2.2) := by
            simp [compensateRev, hc, hdone, CompensateStep, hres]
          rw [hunfold]
          refine List.Forall₂.cons
            ⟨rfl, fun _ _ => Or.inr
              ⟨.plain ("failed to resolve compensation input: " ++ e),
                List.mem_cons_self _ _⟩⟩ (ih.imp ?_)
          intro s s' h
          refine ⟨h.1, fun h1 h2 => (h.2 h1 h2).imp id (fun he =>
            ⟨he.choose, List.mem_cons_of_mem _ he.choose_spec⟩)⟩
        | ok inp =>
          cases hinv : invoke ⟨step.StepID, comp.Method, inp, execCtx.WorkflowID,
              step.StepID ++ "_compensate"⟩ with
          | error e =>
            have hunfold : compensateRev invoke execCtx (step :: rest) =
                (step :: (compensateRev invoke execCtx rest).1,
                 (step.StepID, e) :: (compensateRev invoke execCtx rest).2.1,
                 ⟨step.StepID, comp.Method, inp, execCtx.WorkflowID,
                   step.StepID ++ "_compensate"⟩ ::
                     (compensateRev invoke execCtx rest).2.2) := by
              simp [compensateRev, hc, hdone, CompensateStep, hres, hinv]
            rw [hunfold]
            refine List.Forall₂.cons
              ⟨rfl, fun _ _ => Or.inr ⟨e, List.mem_cons_self _ _⟩⟩ (ih.imp ?_)
            intro s s' h
            refine ⟨h.1, fun h1 h2 => (h.2 h1 h2).imp id (fun he =>
              ⟨he.choose, List.mem_cons_of_mem _ he.choose_spec⟩)⟩
          | ok v =>
            have hunfold : compensateRev invoke execCtx (step :: rest) =
                ({ step with Compensated := true } ::
                   (compensateRev invoke execCtx rest).1,
                 (compensateRev invoke execCtx rest).2.1,
                 ⟨step.StepID, comp.Method, inp, execCtx.WorkflowID,
                   step.StepID ++ "_compensate"⟩ ::
                     (compensateRev invoke execCtx rest).2.2) := by
              simp [compensateRev, hc, hdone, CompensateStep, hres, hinv]
            rw [hunfold]
            refine List.Forall₂.cons ⟨rfl, fun _ _ => Or.inl rfl⟩ (ih.imp ?_)
            intro s s' h
            exact ⟨h.1, fun h1 h2 => h.2 h1 h2⟩

/-- C1.  The saga coordinator visits `executed_steps` strictly from last to
first: the calls it issues are exactly the eligible-and-resolvable entries
of the reversed log in order; for every entry whose compensation is non-nil
and not yet compensated, the final log either marks it compensated or the
error list records a failure under its step id (so a failed compensation
stops nothing and no eligible entry is skipped); and the aggregate error is
returned exactly when at least one compensation failed. -/
theorem saga_reverse_order_and_coverage
    (invoke : InvokeCall → Except GoError Value) (execCtx : ExecutionContext) :
    (Compensate invoke execCtx).calls =
        execCtx.ExecutedSteps.reverse.filterMap (sagaCallOf execCtx) ∧
    List.Forall₂ (fun s s' =>
        s.StepID = s'.StepID ∧
          (s.Compensation.isSome = true → s.Compensated = false →
            (s'.Compensated = true ∨
              ∃ e, (s.StepID, e) ∈ (Compensate invoke execCtx).errors)))
      execCtx.ExecutedSteps (Compensate invoke execCtx).execCtx.ExecutedSteps ∧
    ((Compensate invoke execCtx).result.isSome = true ↔
      (Compensate invoke execCtx).errors ≠ []) := by
  by_cases hlen : execCtx.ExecutedSteps.length = 0
  · have hnil : execCtx.ExecutedSteps = [] := List.length_eq_zero.mp hlen
    refine ⟨?_, ?_, ?_⟩
    · simp [Compensate, hlen, hnil]
    · simp [Compensate, hlen, hnil]
    · simp [Compensate, hlen]
  · have hcalls := compensateRev_calls invoke execCtx execCtx.ExecutedSteps.reverse
    have hcov := compensateRev_coverage invoke execCtx execCtx.ExecutedSteps.reverse
    refine ⟨?_, ?_, ?_⟩
    · simp [Compensate, hlen, hcalls]
    · have h2 : List.Forall₂ (fun s s' =>
          s.StepID = s'.StepID ∧
            (s.Compensation.isSome = true → s.Compensated = false →
              (s'.Compensated = true ∨
                ∃ e, (s.StepID, e) ∈ (Compensate invoke execCtx).errors)))
          execCtx.ExecutedSteps.reverse
          (compensateRev invoke execCtx execCtx.ExecutedSteps.reverse).1 := by
        refine hcov.imp ?_
        intro s s' h
        refine ⟨h.1, fun h1 h2 => (h.2 h1 h2).imp id (fun ⟨e, he⟩ => ⟨e, ?_⟩)⟩
        simpa [Compensate, hlen] using he
      have h3 := List.forall₂_reverse_iff.mpr h2
      simp only [List.reverse_reverse] at h3
      simpa [Compensate, hlen] using h3.flip.flip
    · simp only [Compensate, hlen]
      by_cases herr :
          (compensateRev invoke execCtx execCtx.ExecutedSteps.reverse).2.1.length = 0
      · simp [herr, List.length_eq_zero.mp herr]
      · have : (compensateRev invoke execCtx execCtx.ExecutedSteps.reverse).2.1 ≠ [] := by
          intro hn
          exact herr (by simp [hn])
        simp [herr, this]

/-- A concrete saga log: three committed entries, the middle one without a
compensation, and an invoker that fails the compensation of the last
entry. -/
def sagaCtx : ExecutionContext :=
  ⟨"wid", [], [], [],
    [⟨"s1", .null, some ⟨"u1", []⟩, false⟩,
     ⟨"s2", .null, none, false⟩,
     ⟨"s3", .null, some ⟨"u3", []⟩, false⟩]⟩

/-- Invoker for the concrete saga scenario: the compensation method of the
last entry fails, everything else succeeds. -/
def sagaInvoke : InvokeCall → Except GoError Value := fun c =>
  if c.method = "u3" then .error (.plain "c-fail") else .ok .null

/-- C1 witness: on the concrete log the coordinator calls `s3` then `s1`
(last to first, skipping the entry without a compensation), and the
aggregate error is returned because `s3`'s compensation failed. -/
theorem saga_reverse_order_and_coverage_witness :
    (Compensate sagaInvoke sagaCtx).calls =
        sagaCtx.ExecutedSteps.reverse.filterMap (sagaCallOf sagaCtx) ∧
    ((Compensate sagaInvoke sagaCtx).result.isSome = true ↔
        (Compensate sagaInvoke sagaCtx).errors ≠ []) ∧
    (Compensate sagaInvoke sagaCtx).calls.map (fun c => c.service) =
        ["s3", "s1"] ∧
    (Compensate sagaInvoke sagaCtx).errors.map (fun p => p.1) = ["s3"] :=
  ⟨(saga_reverse_order_and_coverage sagaInvoke sagaCtx).1,
   (saga_reverse_order_and_coverage sagaInvoke sagaCtx).2.2,
   rfl, rfl⟩

/-- A binary-RPC service configuration without a retry policy. -/
def svcGrpc : Service := ⟨"grpc", "localhost:50051", 0, none, []⟩

/-- A step owned by service `payment` that declares a compensation. -/
def stepReserve : Step :=
  .mk "reserve_step" "payment" "Reserve" [] "" "" (some ⟨"CancelReserve", []⟩) []

/-- A second step whose forward call will fail, triggering compensation. -/
def stepCharge : Step := .mk "charge_step" "payment" "Charge" [] "" "" none []

/-- Two-step workflow on one service named `payment`. -/
def wfPair : Workflow :=
  ⟨"wf", "1", 0, [("payment", svcGrpc)], [stepReserve, stepCharge], []⟩

/-- Invoker failing the second step's forward call only. -/
def invokePair : InvokeCall → Nat → Except GoError Value := fun c _ =>
  if c.method = "Charge" then .error (.plain "boom") else .ok (.str "ok")

/-- The run of `wfPair`: step one commits, step two fails, compensation
runs. -/
def runPair : RunOutcome := ExecuteWorkflow invokePair (fun _ => false) "wid" wfPair []

/-- C2.  The compensation of the committed step owned by service `payment`
is issued with the step's id `reserve_step` as the service-name argument of
the Invoker — not the owning step's service: `CompensateStep` passes
`step.StepID` where `InvokeMethod` expects a service name, so the claim
that the compensation call targets the step's service fails. -/
theorem compensation_service_uses_step_id_bug :
    runPair.sagaCalls =
        [⟨"reserve_step", "CancelReserve", [], "wid", "reserve_step_compensate"⟩] ∧
    stepReserve.Service = "payment" ∧ "reserve_step" ≠ "payment" :=
  ⟨rfl, rfl, by decide⟩

/-- A compensation-declaring guarded step whose `when` renders `false`:
guard `input.flag`, output name `o`. -/
def stepGuard : Step :=
  .mk "s1" "svc" "m" [] "o" "\x7b\x7b .input.flag \x7d\x7d" (some ⟨"undo", []⟩) []

/-- One-step workflow around `stepGuard`. -/
def wfGuard : Workflow := ⟨"wfg", "1", 0, [("svc", svcGrpc)], [stepGuard], []⟩

/-- The run of `wfGuard` with `input.flag = "false"`; the invoker would
succeed but is never consulted. -/
def runGuard : RunOutcome :=
  ExecuteWorkflow (fun _ _ => .ok (.str "never")) (fun _ => false) "wid" wfGuard
    [("flag", .str "false")]

/-- C3 counterexample: after the guarded-false step, `step_outputs` maps the
step's output name to null and `executed_steps` holds one entry — both
changed, contrary to the claim that they stay exactly unchanged. -/
theorem guard_false_records_output_and_compensation_cex :
    runGuard.execCtx.StepOutputs = [("o", Value.null)] ∧
    runGuard.execCtx.ExecutedSteps.length = 1 ∧
    runGuard.result.Status = .Success ∧
    runGuard.stepsStarted = 1 :=
  ⟨rfl, rfl, rfl, rfl⟩

/-- C3 as amended.  A guarded-false leaf leaves the context unchanged inside
`ExecuteStep` — no invocation, a non-nil result with nil output — but the
driver then commits that result: the output name (when set) is recorded
with value null and a saga-log entry is appended (when a compensation is
declared), before the run proceeds to the next step. -/
theorem guard_false_step_driver_commits
    (invoke : InvokeCall → Nat → Except GoError Value) (step : Step)
    (ctx : ExecutionContext) (wf : Workflow)
    (hpar : step.Parallel = []) (hwhen : step.When ≠ "")
    (hcond : evaluateCondition step.When ctx = .ok false) :
    ExecuteStep invoke step ctx wf = ([], .ok (some ⟨step.ID, .null⟩)) ∧
    (commitStep ctx step (some ⟨step.ID, .null⟩)).StepOutputs =
        (if step.Output ≠ "" then insertKey ctx.StepOutputs step.Output .null
         else ctx.StepOutputs) ∧
    (commitStep ctx step (some ⟨step.ID, .null⟩)).ExecutedSteps =
        ctx.ExecutedSteps ++
          (match step.Compensate with
           | some c => [⟨step.ID, .null, some c, false⟩]
           | none => []) ∧
    ∀ (ctxDone : Nat → Bool) (i : Nat) (rest : List Step),
      ctxDone i = false →
      runSteps invoke ctxDone wf ctx i (step :: rest) =
        (let next := runSteps invoke ctxDone wf
            (commitStep ctx step (some ⟨step.ID, .null⟩)) (i + 1) rest
         { next with stepsStarted := next.stepsStarted + 1 }) := by
  have hexec : ExecuteStep invoke step ctx wf = ([], .ok (some ⟨step.ID, .null⟩)) := by
    simp [ExecuteStep, hpar, hwhen, hcond]
  refine ⟨hexec, ?_, ?_, ?_⟩
  · by_cases ho : step.Output = ""
    · simp [commitStep, ho]
      cases step.Compensate <;> simp
    · simp [commitStep, ho]
      cases step.Compensate <;> simp
  · by_cases ho : step.Output = ""
    · simp [commitStep, ho]
      cases step.Compensate <;> simp
    · simp [commitStep, ho]
      cases step.Compensate <;> simp
  · intro ctxDone i rest hdone
    simp [runSteps, hdone, hexec]

/-- C3 witness: the amended theorem applied to the concrete guarded step of
`wfGuard`, whose guard renders `false` against `input.flag = "false"`. -/
theorem guard_false_step_driver_commits_witness :
    ExecuteStep (fun _ _ => .ok (.str "never")) stepGuard
        ⟨"wid", [("flag", .str "false")], [], [], []⟩ wfGuard =
      ([], .ok (some ⟨"s1", .null⟩)) :=
  (guard_false_step_driver_commits (fun _ _ => .ok (.str "never")) stepGuard
    ⟨"wid", [("flag", .str "false")], [], [], []⟩ wfGuard rfl
    (by decide) rfl).1

/-- The retry loop makes at most `fuel` invocations. -/
theorem retryLoopAux_length_le (invoke : Nat → Except GoError Value)
    (retry : Option RetryConfig) (cap : Nat) :
    ∀ (fuel attempt : Nat),
      (retryLoopAux invoke retry cap fuel attempt).1.length ≤ fuel
  | 0, _ => by simp [retryLoopAux]
  | fuel + 1, attempt => by
    have ih := retryLoopAux_length_le invoke retry cap fuel (attempt + 1)
    cases hinv : invoke attempt with
    | ok v => simp [retryLoopAux, hinv]
    | error e =>
      by_cases hcont : attempt < cap ∧ isRetryableError e
      · simp only [retryLoopAux, hinv, if_pos hcont, List.length_cons]
        omega
      · simp [retryLoopAux, hinv, hcont]

/-- Every attempt of the retry loop except the last failed with an error
the classifier deems retryable. -/
theorem retryLoopAux_mid_retryable (invoke : Nat → Except GoError Value)
    (retry : Option RetryConfig) (cap : Nat) :
    ∀ (fuel attempt j : Nat) (t : AttemptTrace),
      (retryLoopAux invoke retry cap fuel attempt).1.get? j = some t →
      j + 1 < (retryLoopAux invoke retry cap fuel attempt).1.length →
      ∃ e, t.outcome = .error e ∧ isRetryableError e = true
  | 0, _, _, _ => by simp [retryLoopAux]
  | fuel + 1, attempt, j, t => by
    intro hget hlt
    cases hinv : invoke attempt with
    | ok v =>
      rw [retryLoopAux, hinv] at hget hlt
      simp at hlt
    | error e =>
      by_cases hcont : attempt < cap ∧ isRetryableError e
      · rw [retryLoopAux, hinv] at hget hlt
        simp only [if_pos hcont] at hget hlt
        cases j with
        | zero =>
          simp only [List.get?] at hget
          cases hget
          exact ⟨e, rfl, hcont.2⟩
        | succ j' =>
          simp only [List.get?] at hget
          simp only [List.length_cons] at hlt
          exact retryLoopAux_mid_retryable invoke retry cap fuel (attempt + 1) j' t
            hget (by omega)
      · rw [retryLoopAux, hinv] at hget hlt
        simp only [if_neg hcont] at hlt
        simp at hlt

/-- The sleep recorded before each attempt is `calculateBackoff` of the
preceding attempt number, and the first attempt is not preceded by a
sleep. -/
theorem retryLoopAux_sleeps (invoke : Nat → Except GoError Value)
    (retry : Option RetryConfig) (cap : Nat) :
    ∀ (fuel attempt j : Nat) (t : AttemptTrace),
      (retryLoopAux invoke retry cap fuel attempt).1.get? j = some t →
      t.sleepBefore =
        (if attempt + j > 1 then some (calculateBackoff (attempt + j - 1) retry)
         else none)
  | 0, _, _, _ => by simp [retryLoopAux]
  | fuel + 1, attempt, j, t => by
    intro hget
    cases hinv : invoke attempt with
    | ok v =>
      rw [retryLoopAux, hinv] at hget
      cases j with
      | zero => cases hget; simp
      | succ j' => simp at hget
    | error e =>
      by_cases hcont : attempt < cap ∧ isRetryableError e
      · rw [retryLoopAux, hinv] at hget
        simp only [if_pos hcont] at hget
        cases j with
        | zero => cases hget; simp
        | succ j' =>
          simp only [List.get?] at hget
          have ih := retryLoopAux_sleeps invoke retry cap fuel (attempt + 1) j' t hget
          rw [ih]
          have h1 : attempt + 1 + j' = attempt + (j' + 1) := by omega
          rw [h1]
      · rw [retryLoopAux, hinv] at hget
        simp only [if_neg hcont] at hget
        cases j with
        | zero => cases hget; simp
        | succ j' => simp at hget

/-- Signed 64-bit wrap is the identity inside the `int64` range. -/
theorem wrap64_eq_self (n : Int) (h1 : -(2 ^ 63) ≤ n) (h2 : n < 2 ^ 63) :
    wrap64 n = n := by
  unfold wrap64
  have h3 : (n + 2 ^ 63) % 2 ^ 64 = n + 2 ^ 63 :=
    Int.emod_eq_of_lt (by omega) (by omega)
  rw [h3]
  ring

/-- C4 as amended.  Another attempt of the leaf retry loop is made only
while the attempt count is below the cap and the most recent error is
classified retryable — and the classifier's retryable class is exactly the
gRPC status codes unavailable, deadline exceeded and resource exhausted
(possibly wrapped): HTTP-layer and other plain errors carry no status and
are terminal. -/
theorem retry_continues_only_on_grpc_retryable_codes
    (invoke : Nat → Except GoError Value) (retry : Option RetryConfig)
    (cap : Nat) :
    (retryLoop invoke retry cap).1.length ≤ cap ∧
    (∀ (j : Nat) (t : AttemptTrace),
      (retryLoop invoke retry cap).1.get? j = some t →
      j + 1 < (retryLoop invoke retry cap).1.length →
      ∃ e, t.outcome = .error e ∧ isRetryableError e = true) ∧
    (∀ e : GoError, isRetryableError e = true ↔
      (statusFromError e = some .Unavailable ∨
        statusFromError e = some .DeadlineExceeded ∨
        statusFromError e = some .ResourceExhausted)) := by
  refine ⟨retryLoopAux_length_le invoke retry cap cap 1,
    fun j t => retryLoopAux_mid_retryable invoke retry cap cap 1 j t, fun e => ?_⟩
  unfold isRetryableError
  cases h : statusFromError e with
  | none => simp
  | some c => cases c <;> simp

/-- The HTTP adapter's error for a 503 reply (`fmt.Errorf("HTTP %d: %s")`),
a plain error without a gRPC status. -/
def http503 : GoError := .httpError 503 "service unavailable"

/-- C4 counterexample: an HTTP 503 error belongs to the claim's retryable
class, yet the code's classifier calls it terminal and the retry loop stops
after a single attempt with four attempts left under the cap. -/
theorem retry_class_excludes_http_5xx_cex :
    claimRetryable http503 = true ∧ isRetryableError http503 = false ∧
    (retryLoop (fun _ => .error http503) (some ⟨5, "constant"⟩) 5).1.length = 1 ∧
    (1 : Nat) < 5 :=
  ⟨rfl, rfl, rfl, by decide⟩

/-- C4 witness: under a cap of three with a persistent `Unavailable` status
error, the loop is capped at three attempts and the first attempt's
recorded failure is classified retryable. -/
theorem retry_continues_only_on_grpc_retryable_codes_witness :
    (retryLoop (fun _ => .error (.grpcStatus .Unavailable "x"))
        (some ⟨3, "constant"⟩) 3).1.length ≤ 3 ∧
    ∃ e, (⟨none, .error (.grpcStatus .Unavailable "x")⟩ : AttemptTrace).outcome =
        .error e ∧ isRetryableError e = true :=
  ⟨(retry_continues_only_on_grpc_retryable_codes
      (fun _ => .error (.grpcStatus .Unavailable "x")) (some ⟨3, "constant"⟩) 3).1,
   (retry_continues_only_on_grpc_retryable_codes
      (fun _ => .error (.grpcStatus .Unavailable "x")) (some ⟨3, "constant"⟩) 3).2.1
     0 ⟨none, .error (.grpcStatus .Unavailable "x")⟩ rfl (by decide)⟩

/-- C9 as amended.  Between consecutive attempts the scheduler sleeps
exactly `calculateBackoff (attempt - 1)`; that equals the spec's
`min(1s * 2^(attempt-1), 30s)` for exponential backoff up to attempt 34
and one second for any non-exponential policy, but from attempt 35 on the
`int64` product `1s * 2^(attempt-1)` overflows, so the computed backoff is
the wrapped (negative, hence not slept) value instead of 30s. -/
theorem backoff_sleeps_follow_calculateBackoff
    (invoke : Nat → Except GoError Value) (retry : Option RetryConfig)
    (cap : Nat) :
    (∀ (j : Nat) (t : AttemptTrace),
      (retryLoop invoke retry cap).1.get? j = some t → 1 ≤ j →
      t.sleepBefore = some (calculateBackoff j retry)) ∧
    (∀ (t : AttemptTrace),
      (retryLoop invoke retry cap).1.get? 0 = some t → t.sleepBefore = none) ∧
    (∀ (k : Nat) (r : RetryConfig), 1 ≤ k → k ≤ 33 →
      r.Backoff = "exponential" →
      calculateBackoff k (some r) = specBackoff (k + 1) r.Backoff) ∧
    (∀ (k : Nat) (r : RetryConfig), r.Backoff ≠ "exponential" →
      calculateBackoff k (some r) = specBackoff (k + 1) r.Backoff) ∧
    (∀ k : Nat, calculateBackoff k none = nsPerSecond) := by
  refine ⟨?_, ?_, ?_, ?_, fun k => rfl⟩
  · intro j t hget hj
    have h := retryLoopAux_sleeps invoke retry cap cap 1 j t hget
    have hcond : 1 + j > 1 := by omega
    rw [h, if_pos hcond]
    have hsub : 1 + j - 1 = j := by omega
    rw [hsub]
  · intro t hget
    have h := retryLoopAux_sleeps invoke retry cap cap 1 0 t hget
    simpa using h
  · intro k r hk1 hk33 hexp
    have hpow : (0 : Int) < 2 ^ k := pow_pos (by norm_num) k
    have hpow33 : (2 : Int) ^ k ≤ 2 ^ 33 := pow_le_pow_right₀ (by norm_num) hk33
    have hk64 : ¬ k ≥ 64 := by omega
    have hshift : shiftOne64 k = 2 ^ k := by
      rw [shiftOne64, if_neg hk64]
      exact wrap64_eq_self _ (le_trans (by norm_num) hpow.le)
        (lt_of_le_of_lt hpow33 (by norm_num))
    have hfit : wrap64 (nsPerSecond * 2 ^ k) = nsPerSecond * 2 ^ k := by
      apply wrap64_eq_self
      · exact le_trans (by norm_num)
          (mul_nonneg (by norm_num [nsPerSecond]) hpow.le)
      · have hle : nsPerSecond * 2 ^ k ≤ nsPerSecond * 2 ^ 33 :=
          mul_le_mul_of_nonneg_left hpow33 (by norm_num [nsPerSecond])
        calc nsPerSecond * 2 ^ k ≤ nsPerSecond * 2 ^ 33 := hle
          _ < 2 ^ 63 := by norm_num [nsPerSecond]
    simp only [calculateBackoff, specBackoff, hexp, hshift]
    simp only [ne_eq, not_true_eq_false, if_false, if_true, Nat.add_sub_cancel,
      hfit]
  · intro k r hne
    rw [calculateBackoff, if_pos hne, specBackoff, if_neg hne]

/-- A forty-attempt exponential retry policy. -/
def retryExp : RetryConfig := ⟨40, "exponential"⟩

/-- C9 counterexample: before attempt 35 (backoff argument 34) the computed
exponential backoff has overflowed `int64` and is negative — while the
claim's formula prescribes the 30-second cap — and the loop's trace indeed
records that negative sleep before attempt 35. -/
theorem exponential_backoff_overflows_cex :
    calculateBackoff 34 (some retryExp) < 0 ∧
    specBackoff 35 "exponential" = 30 * nsPerSecond ∧
    calculateBackoff 34 (some retryExp) ≠ specBackoff 35 "exponential" ∧
    ((retryLoop (fun _ => .error (.grpcStatus .Unavailable "u"))
        (some retryExp) 40).1.get? 34 |>.map (fun t => t.sleepBefore)) =
      some (some (calculateBackoff 34 (some retryExp))) :=
  ⟨by decide, by decide, by decide, rfl⟩

/-- C9 witness: the amended theorem applied to a concrete loop — the sleep
recorded before attempt 2 under a constant policy is `calculateBackoff 1`,
and attempt 6's exponential backoff matches the spec formula
`min(1s * 2^5, 30s)`. -/
theorem backoff_sleeps_follow_calculateBackoff_witness :
    (⟨some nsPerSecond, .error (.grpcStatus .Unavailable "u")⟩ :
        AttemptTrace).sleepBefore =
      some (calculateBackoff 1 (some ⟨3, "constant"⟩)) ∧
    calculateBackoff 5 (some retryExp) = specBackoff 6 "exponential" :=
  ⟨(backoff_sleeps_follow_calculateBackoff
      (fun _ => .error (.grpcStatus .Unavailable "u")) (some ⟨3, "constant"⟩) 3).1
      1 ⟨some nsPerSecond, .error (.grpcStatus .Unavailable "u")⟩ rfl (by decide),
   (backoff_sleeps_follow_calculateBackoff
      (fun _ => .error (.grpcStatus .Unavailable "u")) (some retryExp) 40).2.2.1
      5 retryExp (by decide) (by decide) rfl⟩

/-- Unfolding of the driver loop when the between-step check passes and the
scheduler returns an error: the saga coordinator runs and the result carries
the originating error with status failed or compensated. -/
theorem runSteps_error_unfold (invoke : InvokeCall → Nat → Except GoError Value)
    (ctxDone : Nat → Bool) (wf : Workflow) (ctx : ExecutionContext) (i : Nat)
    (step : Step) (rest : List Step) (e : GoError)
    (hdone : ctxDone i = false)
    (hexec : (ExecuteStep invoke step ctx wf).2 = .error e) :
    runSteps invoke ctxDone wf ctx i (step :: rest) =
      ⟨⟨ctx.WorkflowID,
         (match (Compensate (fun c => invoke c 1) ctx).result with
          | some _ => WorkflowStatus.Failed
          | none => WorkflowStatus.Compensated),
         [], some e⟩,
       (Compensate (fun c => invoke c 1) ctx).execCtx, true,
       (Compensate (fun c => invoke c 1) ctx).errors,
       (Compensate (fun c => invoke c 1) ctx).calls, 1⟩ := by
  simp [runSteps, hdone, hexec]

/-- C5 as amended.  When a step fails in flight (as it does when the
workflow deadline expires during the call, surfacing a deadline error from
the attempt), the driver takes the failure path, not the cancellation path:
the saga coordinator is invoked, the run ends with status compensated (or
failed, if some compensation fails) — never cancelled — the originating
step error is returned, and no further step is attempted.  Status cancelled
arises only from the between-step check. -/
theorem in_flight_step_failure_takes_saga_path
    (invoke : InvokeCall → Nat → Except GoError Value) (ctxDone : Nat → Bool)
    (wf : Workflow) (ctx : ExecutionContext) (i : Nat) (step : Step)
    (rest : List Step) (e : GoError)
    (hdone : ctxDone i = false)
    (hexec : (ExecuteStep invoke step ctx wf).2 = .error e) :
    (runSteps invoke ctxDone wf ctx i (step :: rest)).result.Error = some e ∧
    (runSteps invoke ctxDone wf ctx i (step :: rest)).sagaInvoked = true ∧
    (runSteps invoke ctxDone wf ctx i (step :: rest)).stepsStarted = 1 ∧
    (runSteps invoke ctxDone wf ctx i (step :: rest)).result.Status =
      (match (Compensate (fun c => invoke c 1) ctx).result with
       | some _ => WorkflowStatus.Failed
       | none => WorkflowStatus.Compensated) ∧
    (runSteps invoke ctxDone wf ctx i (step :: rest)).result.Status ≠
      .Cancelled := by
  rw [runSteps_error_unfold invoke ctxDone wf ctx i step rest e hdone hexec]
  refine ⟨rfl, rfl, rfl, rfl, ?_⟩
  cases (Compensate (fun c => invoke c 1) ctx).result <;> simp

/-- First step of the workflow-timeout scenario; its invocation observes
the expired deadline. -/
def stepFirst : Step := .mk "stepA" "svc" "m1" [] "" "" none []

/-- Second step of the workflow-timeout scenario; never attempted. -/
def stepSecond : Step := .mk "stepB" "svc" "m2" [] "" "" none []

/-- Workflow with a one-second timeout and two sequential steps. -/
def wfTimeout : Workflow :=
  ⟨"wft", "1", nsPerSecond, [("svc", svcGrpc)], [stepFirst, stepSecond], []⟩

/-- Invoker modelling a first step that outlives the workflow deadline: the
call returns the transport's deadline-exceeded status (what a gRPC call
reports once its context expires). -/
def invokeTimeout : InvokeCall → Nat → Except GoError Value := fun c _ =>
  if c.stepID = "stepA" then
    .error (.grpcStatus .DeadlineExceeded "context deadline exceeded")
  else .ok .null

/-- The workflow-timeout run: the deadline expires while step one is in
flight, so the between-step check (only reached before each step) never
observes it. -/
def runTimeout : RunOutcome :=
  ExecuteWorkflow invokeTimeout (fun _ => false) "wid" wfTimeout []

/-- C5 counterexample: the run ends with status compensated — not
cancelled — the saga coordinator is invoked (vacuously, nothing is
committed), and the second step is never attempted; the claim's expected
status cancelled does not occur. -/
theorem workflow_timeout_in_flight_status_compensated_cex :
    runTimeout.result.Status = .Compensated ∧
    runTimeout.result.Status ≠ .Cancelled ∧
    runTimeout.sagaInvoked = true ∧ runTimeout.sagaCalls = [] ∧
    runTimeout.stepsStarted = 1 :=
  ⟨rfl, by decide, rfl, rfl, rfl⟩

/-- C5 witness: the amended theorem applied to the concrete timeout
scenario, with the deadline error surfacing as the run's returned error. -/
theorem in_flight_step_failure_takes_saga_path_witness :
    (runSteps invokeTimeout (fun _ => false) wfTimeout ⟨"wid", [], [], [], []⟩
        0 [stepFirst, stepSecond]).result.Error =
      some (.grpcStatus .DeadlineExceeded "context deadline exceeded") :=
  (in_flight_step_failure_takes_saga_path invokeTimeout (fun _ => false)
    wfTimeout ⟨"wid", [], [], [], []⟩ 0 stepFirst [stepSecond]
    (.grpcStatus .DeadlineExceeded "context deadline exceeded") rfl rfl).1

/-- C10.  When a step fails while the saga log is still empty, the
coordinator returns nil without invoking anything, so the driver reports
status compensated — not failed — while the originating step error is
still returned to the caller. -/
theorem empty_saga_failure_yields_compensated
    (invoke : InvokeCall → Nat → Except GoError Value) (ctxDone : Nat → Bool)
    (wf : Workflow) (ctx : ExecutionContext) (i : Nat) (step : Step)
    (rest : List Step) (e : GoError)
    (hempty : ctx.ExecutedSteps = [])
    (hdone : ctxDone i = false)
    (hexec : (ExecuteStep invoke step ctx wf).2 = .error e) :
    (runSteps invoke ctxDone wf ctx i (step :: rest)).result.Status =
        .Compensated ∧
    (runSteps invoke ctxDone wf ctx i (step :: rest)).result.Status ≠
        .Failed ∧
    (runSteps invoke ctxDone wf ctx i (step :: rest)).result.Error = some e ∧
    (runSteps invoke ctxDone wf ctx i (step :: rest)).sagaInvoked = true ∧
    (runSteps invoke ctxDone wf ctx i (step :: rest)).sagaCalls = [] ∧
    (runSteps invoke ctxDone wf ctx i (step :: rest)).sagaErrors = [] := by
  have hsaga : Compensate (fun c => invoke c 1) ctx = ⟨ctx, [], [], none⟩ := by
    simp [Compensate, hempty]
  rw [runSteps_error_unfold invoke ctxDone wf ctx i step rest e hdone hexec,
    hsaga]
  exact ⟨rfl, by simp, rfl, rfl, rfl, rfl⟩

/-- C10 witness: the theorem applied to the concrete failing first step of
`wfTimeout` on a fresh (empty) execution context. -/
theorem empty_saga_failure_yields_compensated_witness :
    (runSteps invokeTimeout (fun _ => false) wfTimeout ⟨"wid", [], [], [], []⟩
        0 [stepFirst, stepSecond]).result.Status = .Compensated ∧
    (runSteps invokeTimeout (fun _ => false) wfTimeout ⟨"wid", [], [], [], []⟩
        0 [stepFirst, stepSecond]).sagaCalls = [] := by
  have h := empty_saga_failure_yields_compensated invokeTimeout (fun _ => false)
    wfTimeout ⟨"wid", [], [], [], []⟩ 0 stepFirst [stepSecond]
    (.grpcStatus .DeadlineExceeded "context deadline exceeded") rfl rfl rfl
  exact ⟨h.1, h.2.2.2.2.1⟩

/-- Acceptance by `validateService` coincides with the basic predicate. -/
theorem validateService_ok_iff (name : String) (s : Service) :
    validateService name s = .ok () ↔ ServiceBasicOK s = true := by
  unfold validateService ServiceBasicOK
  split_ifs with h1 h2 h3
  · simp [h1]
  · simp [h1, h2]
  · simp only [Bool.and_eq_true, Bool.or_eq_true, bne_iff_ne, beq_iff_eq]
    constructor
    · intro h; cases h
    · intro h
      exfalso
      have hor : s.Type' = "grpc" ∨ s.Type' = "http" := by tauto
      rcases hor with hg | hh
      · exact h3.1 hg
      · exact h3.2 hh
  · simp only [Bool.and_eq_true, Bool.or_eq_true, bne_iff_ne, beq_iff_eq]
    have hor : s.Type' = "grpc" ∨ s.Type' = "http" := by
      rcases not_and_or.mp h3 with hg | hh
      · exact Or.inl (not_not.mp hg)
      · exact Or.inr (not_not.mp hh)
    constructor
    · intro _; tauto
    · intro _; trivial

/-- Acceptance by the services loop coincides with the conjunction of the
basic service predicate. -/
theorem validateServices_ok_iff :
    ∀ l : List (String × Service),
      validateServices l = .ok () ↔ (l.all fun p => ServiceBasicOK p.2) = true
  | [] => by simp [validateServices]
  | (name, s) :: rest => by
    have ih := validateServices_ok_iff rest
    cases h : validateService name s with
    | error e =>
      have hnot : ¬ ServiceBasicOK s = true := fun hb =>
        by simpa [h] using (validateService_ok_iff name s).mpr hb
      simp [validateServices, h, hnot]
    | ok u =>
      have hb : ServiceBasicOK s = true :=
        (validateService_ok_iff name s).mp (by simpa using h)
      simp [validateServices, h, hb, ih]

mutual

/-- Acceptance by `validateStep` coincides with the basic step predicate;
the position index only affects error text, never acceptance. -/
theorem validateStep_ok_iff (services : List (String × Service)) :
    ∀ (s : Step) (index : Nat),
      validateStep services s index = .ok () ↔ StepBasicOK services s = true
  | .mk id svc mth inp out whn comp par, index => by
    by_cases hpar : par.length > 0
    · rw [show validateStep services (.mk id svc mth inp out whn comp par) index =
          validateSteps services par 0 by simp [validateStep, hpar]]
      rw [show StepBasicOK services (.mk id svc mth inp out whn comp par) =
          StepsBasicOK services par by simp [StepBasicOK, hpar]]
      exact validateSteps_ok_iff services par 0
    · simp only [validateStep, StepBasicOK, if_neg hpar]
      by_cases hsvc : svc = ""
      · simp [hsvc]
      · cases hls : lookupService services svc with
        | none => simp [hsvc, hls]
        | some sv =>
          by_cases hmth : mth = ""
          · simp [hsvc, hls, hmth]
          · cases comp with
            | none => simp [hsvc, hls, hmth]
            | some c =>
              by_cases hcm : c.Method = ""
              · simp [hsvc, hls, hmth, hcm]
              · simp [hsvc, hls, hmth, hcm]

/-- Acceptance by the indexed step loop coincides with the conjunction of
the basic step predicate. -/
theorem validateSteps_ok_iff (services : List (String × Service)) :
    ∀ (l : List Step) (index : Nat),
      validateSteps services l index = .ok () ↔
        StepsBasicOK services l = true
  | [], _ => by simp [validateSteps, StepsBasicOK]
  | s :: rest, index => by
    have ih1 := validateStep_ok_iff services s index
    have ih2 := validateSteps_ok_iff services rest (index + 1)
    cases h : validateStep services s index with
    | error e =>
      have hnot : ¬ StepBasicOK services s = true := fun hb => by
        simpa [h] using ih1.mpr hb
      simp [validateSteps, StepsBasicOK, h, hnot]
    | ok u =>
      have hb : StepBasicOK services s = true := ih1.mp (by simpa using h)
      simp [validateSteps, StepsBasicOK, h, hb, ih2]

end

/-- C6 as amended.  Workflow loading/validation accepts a workflow exactly
when its name, version and step list are non-empty, every service has a
non-empty endpoint and type `grpc` or `http`, and every leaf step (also
inside parallel groups) names a known service, a non-empty method, and a
non-empty compensation method when a compensation is declared — step-ID
uniqueness and template-reference acyclicity are not checked anywhere on
the load path, so a workflow with duplicate step IDs or cyclic references
reaches the execution engine. -/
theorem validateWorkflow_checks_exactly_basic (w : Workflow) :
    validateWorkflow w = .ok () ↔ validateWorkflowOK w = true := by
  unfold validateWorkflow validateWorkflowOK
  split_ifs with h1 h2 h3
  · simp [h1]
  · simp [h1, h2]
  · simp [h1, h2, h3]
  · cases h : validateServices w.Services with
    | error e =>
      have hnot : ¬ (w.Services.all fun p => ServiceBasicOK p.2) = true :=
        fun hb => by simpa [h] using (validateServices_ok_iff w.Services).mpr hb
      simp [h, hnot, h1, h2]
    | ok u =>
      have hb : (w.Services.all fun p => ServiceBasicOK p.2) = true :=
        (validateServices_ok_iff w.Services).mp (by simpa using h)
      have hsteps := validateSteps_ok_iff w.Services w.Steps 0
      simp [h, hb, h1, h2, h3, hsteps, Nat.pos_of_ne_zero h3]

/-- First of two steps sharing the id `a`. -/
def stepDupA : Step := .mk "a" "svc" "m1" [] "" "" none []

/-- Second of two steps sharing the id `a`. -/
def stepDupB : Step := .mk "a" "svc" "m2" [] "" "" none []

/-- A workflow whose two steps carry the same explicit id. -/
def wfDup : Workflow :=
  ⟨"wfd", "1", 0, [("svc", svcGrpc)], [stepDupA, stepDupB], []⟩

/-- C6 counterexample: a workflow with duplicate step IDs passes
`validateWorkflow` and executes to completion — nothing on the load path
rejects it. -/
theorem duplicate_step_ids_pass_validation_cex :
    validateWorkflow wfDup = .ok () ∧ stepDupA.ID = stepDupB.ID ∧
    (ExecuteWorkflow (fun _ _ => .ok .null) (fun _ => false) "wid" wfDup
        []).result.Status = .Success :=
  ⟨rfl, rfl, rfl⟩

/-- C6 witness: the characterization applied to the duplicate-ID workflow —
its basic checks hold, so validation accepts it. -/
theorem validateWorkflow_checks_exactly_basic_witness :
    validateWorkflow wfDup = .ok () :=
  (validateWorkflow_checks_exactly_basic wfDup).mpr (by decide)

/-- Key membership distributes over list append. -/
theorem containsKey_append :
    ∀ (l₁ l₂ : List (String × Value)) (k : String),
      containsKey (l₁ ++ l₂) k = (containsKey l₁ k || containsKey l₂ k)
  | [], l₂, k => by simp [containsKey]
  | (k', v) :: rest, l₂, k => by
    by_cases hk : k' = k
    · simp [containsKey, hk]
    · simp [containsKey, hk, containsKey_append rest l₂ k]

/-- The merge of step outputs into the rendered output adds exactly the
step-output keys: membership in the merge is membership in either input. -/
theorem containsKey_mergeStepOutputs :
    ∀ (so res : List (String × Value)) (k : String),
      containsKey (mergeStepOutputs res so) k =
        (containsKey res k || containsKey so k)
  | [], res, k => by simp [mergeStepOutputs, containsKey]
  | (k', v) :: rest, res, k => by
    by_cases hmem : containsKey res k' = true
    · rw [show mergeStepOutputs res ((k', v) :: rest) = mergeStepOutputs res rest
        by simp [mergeStepOutputs, hmem]]
      rw [containsKey_mergeStepOutputs rest res k]
      by_cases hk : k' = k
      · subst hk
        simp [containsKey, hmem]
      · simp [containsKey, hk]
    · rw [show mergeStepOutputs res ((k', v) :: rest) =
          mergeStepOutputs (res ++ [(k', v)]) rest
        by simp [mergeStepOutputs, hmem]]
      rw [containsKey_mergeStepOutputs rest (res ++ [(k', v)]) k,
        containsKey_append]
      by_cases hk : k' = k
      · subst hk
        simp [containsKey]
      · simp [containsKey, hk]

/-- A key appears in the rendered workflow output exactly when the output
mapping holds a template under that key that resolves successfully against
the input-only scope. -/
theorem containsKey_renderOutputs :
    ∀ (wfOutput : List (String × String)) (input : List (String × Value))
      (k : String),
      containsKey (renderOutputs wfOutput input) k = true ↔
        ∃ tmpl, (k, tmpl) ∈ wfOutput ∧
          (executeTemplate .errorOnMissing tmpl
            [("input", Value.obj input)]).isOk = true
  | [], input, k => by simp [renderOutputs, containsKey]
  | (key, tmpl) :: rest, input, k => by
    have ih := containsKey_renderOutputs rest input k
    cases h : executeTemplate .errorOnMissing tmpl [("input", Value.obj input)] with
    | error e =>
      rw [show renderOutputs ((key, tmpl) :: rest) input = renderOutputs rest input
        by simp [renderOutputs, applicationParserMode, h]]
      rw [ih]
      constructor
      · rintro ⟨t, ht, hok⟩
        exact ⟨t, List.mem_cons_of_mem _ ht, hok⟩
      · rintro ⟨t, ht, hok⟩
        rcases List.mem_cons.mp ht with heq | hmem
        · exfalso
          have : t = tmpl := (Prod.mk.injEq _ _ _ _ ▸ heq).2
          rw [this, h] at hok
          simp [Except.isOk, Except.toBool] at hok
        · exact ⟨t, hmem, hok⟩
    | ok v =>
      rw [show renderOutputs ((key, tmpl) :: rest) input =
          (key, Value.str v) :: renderOutputs rest input
        by simp [renderOutputs, applicationParserMode, h]]
      by_cases hk : key = k
      · subst hk
        simp only [containsKey, if_pos rfl]
        constructor
        · intro _
          exact ⟨tmpl, List.mem_cons_self _ _, by simp [h, Except.isOk, Except.toBool]⟩
        · intro _; rfl
      · rw [show containsKey ((key, Value.str v) :: renderOutputs rest input) k =
            containsKey (renderOutputs rest input) k
          by simp [containsKey, hk]]
        rw [ih]
        constructor
        · rintro ⟨t, ht, hok⟩
          exact ⟨t, List.mem_cons_of_mem _ ht, hok⟩
        · rintro ⟨t, ht, hok⟩
          rcases List.mem_cons.mp ht with heq | hmem
          · exact absurd ((Prod.mk.injEq _ _ _ _ ▸ heq).1).symm hk
          · exact ⟨t, hmem, hok⟩

/-- C7 as amended.  On a successful run the returned output's keys are
exactly: the workflow `output` keys whose templates resolve against a
scope holding only `input` (templates that reference step outputs or
variables fail and are silently dropped), together with every recorded
step-output name not already present. -/
theorem success_output_keys (invoke : InvokeCall → Nat → Except GoError Value)
    (ctxDone : Nat → Bool) (wf : Workflow) :
    ∀ (steps : List Step) (ctx : ExecutionContext) (i : Nat),
      (runSteps invoke ctxDone wf ctx i steps).result.Status = .Success →
      ∀ k : String,
        containsKey (runSteps invoke ctxDone wf ctx i steps).result.Output k =
            true ↔
          ((∃ tmpl, (k, tmpl) ∈ wf.Output ∧
              (executeTemplate .errorOnMissing tmpl
                [("input",
                  Value.obj
                    (runSteps invoke ctxDone wf ctx i steps).execCtx.Input)]).isOk =
                true) ∨
            containsKey
              (runSteps invoke ctxDone wf ctx i steps).execCtx.StepOutputs k =
              true)
  | [], ctx, i => by
    intro _ k
    rw [show runSteps invoke ctxDone wf ctx i [] =
        ⟨⟨ctx.WorkflowID, .Success,
          mergeStepOutputs (renderOutputs wf.Output ctx.Input) ctx.StepOutputs,
          none⟩, ctx, false, [], [], 0⟩ from rfl]
    simp only
    rw [containsKey_mergeStepOutputs, Bool.or_eq_true,
      containsKey_renderOutputs wf.Output ctx.Input k]
  | step :: rest, ctx, i => by
    intro hsucc k
    by_cases hdone : ctxDone i = true
    · rw [show runSteps invoke ctxDone wf ctx i (step :: rest) =
          ⟨⟨ctx.WorkflowID, .Cancelled, [], some contextErr⟩, ctx,
            false, [], [], 0⟩ by simp [runSteps, hdone]] at hsucc
      simp at hsucc
    · have hdone' : ctxDone i = false := by simpa using hdone
      cases hexec : (ExecuteStep invoke step ctx wf).2 with
      | error e =>
        rw [runSteps_error_unfold invoke ctxDone wf ctx i step rest e hdone'
          hexec] at hsucc
        rcases h : (Compensate (fun c => invoke c 1) ctx).result with _ | v <;>
          rw [h] at hsucc <;> simp at hsucc
      | ok stepResult =>
        have hrun : runSteps invoke ctxDone wf ctx i (step :: rest) =
            (let next := runSteps invoke ctxDone wf
              (commitStep ctx step stepResult) (i + 1) rest
             { next with stepsStarted := next.stepsStarted + 1 }) := by
          simp [runSteps, hdone', hexec]
        rw [hrun] at hsucc ⊢
        exact success_output_keys invoke ctxDone wf rest
          (commitStep ctx step stepResult) (i + 1) hsucc k

/-- Step recording its output under the name `validated`. -/
def stepOut : Step := .mk "s1" "svc" "m" [] "validated" "" none []

/-- Workflow whose `output` mapping holds the key `res` with a template
referencing the recorded step output `validated`. -/
def wfOut : Workflow :=
  ⟨"wf7", "1", 0, [("svc", svcGrpc)],
    [stepOut], [("res", "\x7b\x7b .validated \x7d\x7d")]⟩

/-- The successful run of `wfOut` where the step records `"X"` under
`validated`. -/
def runOut : RunOutcome :=
  ExecuteWorkflow (fun _ _ => .ok (.str "X")) (fun _ => false) "wid" wfOut []

/-- C7 counterexample: the run succeeds and `validated` is recorded, yet the
returned output has no `res` key — its template references the step output,
which the output-rendering scope (holding only `input`) cannot resolve, so
the key is dropped, contrary to the claim that output templates render
against the final scope. -/
theorem output_templates_do_not_see_step_outputs_cex :
    runOut.result.Status = .Success ∧
    containsKey runOut.execCtx.StepOutputs "validated" = true ∧
    wfOut.Output = [("res", "\x7b\x7b .validated \x7d\x7d")] ∧
    containsKey runOut.result.Output "res" = false ∧
    containsKey runOut.result.Output "validated" = true :=
  ⟨rfl, rfl, rfl, rfl, rfl⟩

/-- C7 witness: the characterization applied to the concrete successful
run — the recorded step output `validated` appears among the returned
output's keys. -/
theorem success_output_keys_witness :
    containsKey (runSteps (fun _ _ => .ok (.str "X")) (fun _ => false) wfOut
        ⟨"wid", [], [], [], []⟩ 0 wfOut.Steps).result.Output "validated" =
      true :=
  (success_output_keys (fun _ _ => .ok (.str "X")) (fun _ => false) wfOut
    wfOut.Steps ⟨"wid", [], [], [], []⟩ 0 rfl "validated").mpr (Or.inr rfl)

/-- A template consisting of one reference to the key `missing`. -/
def missingTmpl : String := "\x7b\x7b .missing \x7d\x7d"

/-- C8 as amended.  Only the workflow parser's resolver (built with
`missingkey=error`) reports a missing key as an error; the executor's
resolver — the one actually used for step inputs, `when` guards and
compensation inputs on the application path — runs under Go's default
missing-key policy and renders the placeholder `<no value>` without any
error. -/
theorem resolver_missing_key_modes (data : List (String × Value))
    (h : lookupKey data "missing" = none) :
    executeTemplate .errorOnMissing missingTmpl data =
      .error ("map has no entry for key missing") ∧
    executeTemplate .defaultMissing missingTmpl data = .ok "<no value>" := by
  have hact : hasAction missingTmpl.data = true := rfl
  have hparse : parseAction missingTmpl = some ["missing"] := rfl
  constructor
  · have h1 : executeTemplate .errorOnMissing missingTmpl data =
        (walkFields .errorOnMissing (.obj data) ["missing"]).map Value.render := by
      simp [executeTemplate, hact, hparse]
    have h2 : walkFields .errorOnMissing (Value.obj data) ["missing"] =
        .error ("map has no entry for key " ++ "missing") := by
      simp [walkFields, h]
    rw [h1, h2]
    rfl
  · have h1 : executeTemplate .defaultMissing missingTmpl data =
        (walkFields .defaultMissing (.obj data) ["missing"]).map Value.render := by
      simp [executeTemplate, hact, hparse]
    have h2 : walkFields .defaultMissing (Value.obj data) ["missing"] =
        .ok .null := by
      simp [walkFields, h]
    rw [h1, h2]
    rfl

/-- A step whose only input value is a template referencing an absent
key. -/
def stepMissing : Step := .mk "s" "svc" "m" [("k", .str missingTmpl)] "" "" none []

/-- A fresh execution context with empty input and no recorded outputs. -/
def emptyCtx : ExecutionContext := ⟨"wid", [], [], [], []⟩

/-- C8 counterexample: resolving the step input whose template references a
key absent from the scope succeeds with the placeholder text `<no value>`
instead of returning an error — the executor's resolver lacks the
`missingkey=error` option the claim assumes for every resolution site. -/
theorem executor_resolver_substitutes_placeholder_cex :
    resolveStepInput stepMissing emptyCtx = .ok [("k", .str "<no value>")] ∧
    executeTemplate .errorOnMissing missingTmpl (templateScope emptyCtx) =
      .error ("map has no entry for key missing") :=
  ⟨rfl, rfl⟩

/-- C8 witness: the two resolver modes applied to the concrete empty scope,
where the key `missing` is absent. -/
theorem resolver_missing_key_modes_witness :
    executeTemplate .defaultMissing missingTmpl (templateScope emptyCtx) =
      .ok "<no value>" :=
  (resolver_missing_key_modes (templateScope emptyCtx) rfl).2

end Maestro
